import Mathlib

/-!
Verification of `NmapXmlToJson.py` (function `parse_nmap_xml`): a shallow
embedding of the parsed-XML tree and of the transform it performs, together
with theorems settling the specification's claims about it.
-/

namespace NmapXml

/-- A parsed XML element, as exposed by `xml.etree.ElementTree`:
a tag, an attribute dictionary and a list of child elements. -/
inductive Elem where
  | mk (tag : String) (attrs : List (String × String)) (children : List Elem)
deriving Repr

def Elem.tag : Elem → String
  | ⟨t, _, _⟩ => t

def Elem.attrs : Elem → List (String × String)
  | ⟨_, a, _⟩ => a

def Elem.children : Elem → List Elem
  | ⟨_, _, cs⟩ => cs

/-- Models `elem.get(key)` of ElementTree: attribute lookup, `None` when absent. -/
def Elem.get (e : Elem) (k : String) : Option String :=
  (e.attrs.find? (fun p => p.1 == k)).map (fun p => p.2)

/-- Models `elem.get(key, default)` of ElementTree. -/
def Elem.getD (e : Elem) (k d : String) : String :=
  (e.get k).getD d

/-- Models `elem.find(tag)`: the first direct child with the given tag, if any. -/
def Elem.find (e : Elem) (t : String) : Option Elem :=
  e.children.find? (fun c => c.tag == t)

/-- Models `elem.findall(tag)`: all direct children with the given tag, in order. -/
def Elem.findall (e : Elem) (t : String) : List Elem :=
  e.children.filter (fun c => c.tag == t)

mutual

/-- All elements of the subtree rooted at `e`, in document (preorder) order. -/
def Elem.preorder : Elem → List Elem
  | ⟨t, a, cs⟩ => ⟨t, a, cs⟩ :: preorderList cs

/-- Preorder traversal of a forest, in document order. -/
def preorderList : List Elem → List Elem
  | [] => []
  | c :: cs => Elem.preorder c ++ preorderList cs

end

/-- All proper descendants of `e`, in document order. -/
def Elem.descendants (e : Elem) : List Elem :=
  preorderList e.children

/-- Models `root.findall(".//tag")`: every descendant with the given tag, in
document order. -/
def Elem.findallDeep (e : Elem) (t : String) : List Elem :=
  e.descendants.filter (fun c => c.tag == t)

/-- Python truthiness of an optional string: `None` and `""` are falsy. -/
def pyTruthy : Option String → Bool
  | none => false
  | some s => !(s == "")

/-- Python `str.upper()` for the ASCII range (the protocol values the tool
meets are ASCII), written as a character map so it is kernel-computable. -/
def strUpper (s : String) : String :=
  String.mk (s.data.map Char.toUpper)

/-- Python dict assignment `m[k] = v`: replace the value in place when the
key exists, append otherwise (insertion order preserved). -/
def dictInsert (m : List (String × String)) (k v : String) :
    List (String × String) :=
  if m.any (fun p => p.1 == k) then
    m.map (fun p => if p.1 == k then (k, v) else p)
  else
    m ++ [(k, v)]

/-- Lookup in an association list modelling a Python dict. -/
def alookup (m : List (String × String)) (k : String) : Option String :=
  (m.find? (fun p => p.1 == k)).map (fun p => p.2)

/-- The five service attribute keys the loop at line 85 iterates over. -/
def detailAttrs : List String :=
  ["product", "version", "extrainfo", "method", "conf"]

/-- One iteration of the loop at lines 85-87: the (zero or one) dict entry
the attribute `a` of service element `s` contributes. -/
def attrEntry (s : Elem) (a : String) : List (String × String) :=
  match s.get a with
  | none => []
  | some v => if v == "" then [] else [(a, v)]

/-- State of `service_details` after the loop at lines 85-87. -/
def serviceDetailsBase (s : Elem) : List (String × String) :=
  (detailAttrs.map (attrEntry s)).flatten

/-- Python `combined.append(x) if x:`: the list contribution of an optional
string under truthiness. -/
def optToList : Option String → List String
  | none => []
  | some v => if v == "" then [] else [v]

/-- State of `service_details` after lines 85-98: the five filtered attributes plus
`combined_info` when product or version is truthy. -/
def serviceDetails (s : Elem) : List (String × String) :=
  let base := serviceDetailsBase s
  let product := s.get "product"
  let version := s.get "version"
  if pyTruthy product || pyTruthy version then
    base ++ [("combined_info",
      String.intercalate " " (optToList product ++ optToList version))]
  else
    base

/-- Lines 69-70: the port's state attribute, empty when the `state` child or
its attribute is missing. -/
def portState (port : Elem) : String :=
  match port.find "state" with
  | some st => st.getD "state" ""
  | none => ""

/-- The loop at lines 117-120 building `script_output` from the port's
`script` children. -/
def scriptFold (acc : List (String × String)) :
    List Elem → List (String × String)
  | [] => acc
  | s :: rest =>
      let sid := s.getD "id" ""
      if sid == "" then scriptFold acc rest
      else scriptFold (dictInsert acc sid (s.getD "output" "")) rest

/-- Lines 77-82: the service name; empty when the `service` child or its
`name` attribute is absent. -/
def serviceNameOf (port : Elem) : String :=
  match port.find "service" with
  | some s => s.getD "name" ""
  | none => ""

/-- Lines 77-98: the `service_details` dict for a port; empty when the
`service` child is absent. -/
def serviceDetailsOf (port : Elem) : List (String × String) :=
  match port.find "service" with
  | some s => serviceDetails s
  | none => []

/-- Lines 114-120: the `script_output` dict built from the port's `script`
children. -/
def scriptOutputOf (port : Elem) : List (String × String) :=
  scriptFold [] (port.findall "script")

/-- A flat output record (lines 101-107 plus the two optional keys at
lines 109-123); the five mandatory dict keys are plain fields, the two
optional keys are `Option`-valued (`none` = key absent). -/
structure FlatRecord where
  fqdn : String
  ip : String
  port : String
  port_status : String
  service : String
  detailed_service_info : Option (List (String × String))
  script_output : Option (List (String × String))
deriving Repr, DecidableEq

/-- Lines 76-123: the record built for one port (field computation only;
the status filter at lines 72-74 lives in `processPort`). -/
def mkRecord (hostname ip : String) (port : Elem) : FlatRecord :=
  { fqdn := hostname
    ip := ip
    port := strUpper (port.getD "protocol" "") ++ "/" ++ port.getD "portid" ""
    port_status := portState port
    service := serviceNameOf port
    detailed_service_info :=
      if (serviceDetailsOf port).isEmpty then none
      else some (serviceDetailsOf port)
    script_output :=
      if (port.findall "script").isEmpty then none
      else if (scriptOutputOf port).isEmpty then none
      else some (scriptOutputOf port) }

/-- Lines 64-125: one port of the inner loop; `none` when the status filter
at lines 72-74 skips the port. -/
def processPort (hostname ip f : String) (port : Elem) : Option FlatRecord :=
  if f ≠ "all" ∧ portState port ≠ f then none
  else some (mkRecord hostname ip port)

/-- Lines 42-46: the `addr` attribute of the first address child tagged
`addrtype="ipv4"` (the loop breaks at the first tag match). -/
def firstIpv4Addr (host : Elem) : Option String :=
  match (host.findall "address").find?
      (fun a => a.get "addrtype" == some "ipv4") with
  | some a => a.get "addr"
  | none => none

/-- Lines 51-57: the hostname, empty when absent at any level. -/
def hostFqdn (host : Elem) : String :=
  match host.find "hostnames" with
  | none => ""
  | some hs =>
      match hs.find "hostname" with
      | none => ""
      | some h => h.getD "name" ""

/-- Lines 64-125: the records the `port` children of a `ports` element
contribute, in document order. -/
def portRecords (hostname ip f : String) (ports : Elem) : List FlatRecord :=
  (ports.findall "port").filterMap (processPort hostname ip f)

/-- Lines 40-125: all records one host contributes. -/
def processHost (f : String) (host : Elem) : List FlatRecord :=
  let ipOpt := firstIpv4Addr host
  if pyTruthy ipOpt then
    match host.find "ports" with
    | none => []
    | some ports => portRecords (hostFqdn host) (ipOpt.getD "") f ports
  else []

/-- Lines 37-127: the whole transform over an already-parsed document. -/
def parse_nmap_xml (root : Elem) (f : String) : List FlatRecord :=
  ((root.findallDeep "host").map (processHost f)).flatten

/-- Lines 30-35 around the transform: a document that failed to parse aborts
the run with the parser's error and no partial result; a parsed document
always yields a full result list. -/
def run_parse_nmap_xml (parsed : Except String Elem) (f : String) :
    Except String (List FlatRecord) :=
  match parsed with
  | .error e => .error e
  | .ok root => .ok (parse_nmap_xml root f)

/-! ### Concrete documents used to exercise the theorems -/

/-- Modelled from the claim wording: the space-joined concatenation of
whichever of product and version are non-empty, product first. Stated
separately from `serviceDetails` so the code's derived value can be compared
against it. -/
def specCombinedInfo (p v : Option String) : String :=
  if pyTruthy p = true then
    if pyTruthy v = true then p.getD "" ++ " " ++ v.getD "" else p.getD ""
  else v.getD ""

/-- The http/nginx service element of the §8 scenario. -/
def sampleService : Elem :=
  ⟨"service",
    [("name", "http"), ("product", "nginx"), ("version", "1.18")], []⟩

/-- An open tcp/80 http port running nginx 1.18 (the scenario of §8 of the
design document). -/
def samplePort : Elem :=
  ⟨"port", [("portid", "80"), ("protocol", "tcp")],
    [⟨"state", [("state", "open")], []⟩, sampleService]⟩

/-- A host with ipv4 address 10.0.0.5, hostname web1 and `samplePort`. -/
def sampleHost : Elem :=
  ⟨"host", [],
    [⟨"address", [("addr", "10.0.0.5"), ("addrtype", "ipv4")], []⟩,
     ⟨"hostnames", [], [⟨"hostname", [("name", "web1")], []⟩]⟩,
     ⟨"ports", [], [samplePort]⟩]⟩

/-- A scan document holding just `sampleHost`. -/
def sampleRoot : Elem := ⟨"nmaprun", [], [sampleHost]⟩

/-- The record the transform emits for `sampleRoot`. -/
def sampleRecord : FlatRecord :=
  ⟨"web1", "10.0.0.5", "TCP/80", "open", "http",
    some [("product", "nginx"), ("version", "1.18"),
          ("combined_info", "nginx 1.18")],
    none⟩

/-- A host with only an ipv6 address but with an open port. -/
def v6Host : Elem :=
  ⟨"host", [],
    [⟨"address", [("addr", "fe80::1"), ("addrtype", "ipv6")], []⟩,
     ⟨"ports", [], [samplePort]⟩]⟩

/-- An address element tagged ipv4 whose `addr` attribute is empty. -/
def emptyAddrElem : Elem := ⟨"address", [("addr", ""), ("addrtype", "ipv4")], []⟩

/-- A host whose first ipv4-tagged address has an empty `addr` while a later
ipv4-tagged address carries a usable one, plus an open port. -/
def dualIpv4Host : Elem :=
  ⟨"host", [],
    [emptyAddrElem,
     ⟨"address", [("addr", "192.0.2.7"), ("addrtype", "ipv4")], []⟩,
     ⟨"ports", [], [samplePort]⟩]⟩

/-- A host with an ipv4 address but no `ports` child. -/
def noPortsHost : Elem :=
  ⟨"host", [], [⟨"address", [("addr", "10.1.1.1"), ("addrtype", "ipv4")], []⟩]⟩

/-- An open tcp/443 port with two script children, one of them lacking an
`id` attribute. -/
def scriptedPort : Elem :=
  ⟨"port", [("portid", "443"), ("protocol", "tcp")],
    [⟨"state", [("state", "open")], []⟩,
     ⟨"script", [("id", "ssl-cert"), ("output", "cert info")], []⟩,
     ⟨"script", [("output", "orphan")], []⟩]⟩

/-- The record the transform builds for `scriptedPort`. -/
def scriptedRecord : FlatRecord :=
  ⟨"", "192.0.2.9", "TCP/443", "open", "", none,
    some [("ssl-cert", "cert info")]⟩

/-! ### Basic inversion lemmas about the transform -/

theorem pyTruthy_getD_ne {o : Option String} (h : pyTruthy o = true) :
    o.getD "" ≠ "" := by
  cases o with
  | none => simp [pyTruthy] at h
  | some s => simpa [pyTruthy] using h

theorem mem_parse {root : Elem} {f : String} {r : FlatRecord} :
    r ∈ parse_nmap_xml root f ↔
      ∃ host ∈ root.findallDeep "host", r ∈ processHost f host := by
  simp [parse_nmap_xml]

theorem mem_processHost {f : String} {host : Elem} {r : FlatRecord} :
    r ∈ processHost f host ↔
      pyTruthy (firstIpv4Addr host) = true ∧
      ∃ ports, host.find "ports" = some ports ∧
      ∃ port ∈ ports.findall "port",
        processPort (hostFqdn host) ((firstIpv4Addr host).getD "") f port =
          some r := by
  unfold processHost
  cases hip : pyTruthy (firstIpv4Addr host) with
  | false => simp [hip]
  | true =>
      cases hp : host.find "ports" with
      | none => simp [hp]
      | some P => simp [hip, hp, portRecords, List.mem_filterMap]

theorem processPort_eq_some_iff {h i f : String} {port : Elem}
    {r : FlatRecord} :
    processPort h i f port = some r ↔
      (f = "all" ∨ portState port = f) ∧ r = mkRecord h i port := by
  unfold processPort
  by_cases hc : f ≠ "all" ∧ portState port ≠ f
  · simp only [if_pos hc]
    constructor
    · intro hfalse; cases hfalse
    · rintro ⟨hor, -⟩
      rcases hor with h1 | h2
      · exact absurd h1 hc.1
      · exact absurd h2 hc.2
  · simp only [if_neg hc]
    push_neg at hc
    constructor
    · intro hsome
      refine ⟨?_, (Option.some_inj.1 hsome).symm⟩
      by_cases hall : f = "all"
      · exact Or.inl hall
      · exact Or.inr (hc hall)
    · rintro ⟨-, rfl⟩
      rfl

theorem mkRecord_fqdn (h i : String) (port : Elem) :
    (mkRecord h i port).fqdn = h := rfl

theorem mkRecord_ip (h i : String) (port : Elem) :
    (mkRecord h i port).ip = i := rfl

theorem mkRecord_port (h i : String) (port : Elem) :
    (mkRecord h i port).port =
      strUpper (port.getD "protocol" "") ++ "/" ++ port.getD "portid" "" := rfl

theorem mkRecord_port_status (h i : String) (port : Elem) :
    (mkRecord h i port).port_status = portState port := rfl

theorem mkRecord_service (h i : String) (port : Elem) :
    (mkRecord h i port).service = serviceNameOf port := rfl

theorem mkRecord_dsi (h i : String) (port : Elem) :
    (mkRecord h i port).detailed_service_info =
      if (serviceDetailsOf port).isEmpty then none
      else some (serviceDetailsOf port) := rfl

theorem mkRecord_so (h i : String) (port : Elem) :
    (mkRecord h i port).script_output =
      if (port.findall "script").isEmpty then none
      else if (scriptOutputOf port).isEmpty then none
      else some (scriptOutputOf port) := rfl

theorem preorderList_append (l1 l2 : List Elem) :
    preorderList (l1 ++ l2) = preorderList l1 ++ preorderList l2 := by
  induction l1 with
  | nil => simp [preorderList]
  | cons c cs ih => simp [preorderList, ih]

/-! ### The claims -/

/-- C1: with a status filter other than "all", every emitted record's
`port_status` equals the filter, and a port whose state differs from the
filter contributes no record. -/
theorem c1_status_filter (f : String) (hf : f ≠ "all") :
    (∀ root r, r ∈ parse_nmap_xml root f → r.port_status = f) ∧
    (∀ h i port, portState port ≠ f → processPort h i f port = none) := by
  constructor
  · intro root r hr
    rcases mem_parse.1 hr with ⟨host, -, hmem⟩
    rcases mem_processHost.1 hmem with ⟨-, P, -, port, -, hpp⟩
    rcases processPort_eq_some_iff.1 hpp with ⟨hor, rfl⟩
    rw [mkRecord_port_status]
    rcases hor with h1 | h2
    · exact absurd h1 hf
    · exact h2
  · intro h i port hst
    unfold processPort
    rw [if_pos ⟨hf, hst⟩]

/-- C1 at a concrete input: `sampleRoot` filtered by "open". -/
theorem c1_witness :
    sampleRecord ∈ parse_nmap_xml sampleRoot "open" ∧
    sampleRecord.port_status = "open" :=
  ⟨by decide,
   (c1_status_filter "open" (by decide)).1 sampleRoot sampleRecord (by decide)⟩

/-- C2: a host with no ipv4-tagged address carrying a non-empty address
string contributes no record, and every emitted record's `ip` is
non-empty. -/
theorem c2_ipv4_required :
    (∀ f host,
       (∀ a ∈ host.findall "address",
          a.get "addrtype" = some "ipv4" → pyTruthy (a.get "addr") = false) →
       processHost f host = []) ∧
    (∀ root f r, r ∈ parse_nmap_xml root f → r.ip ≠ "") := by
  constructor
  · intro f host hno
    have hip : pyTruthy (firstIpv4Addr host) = false := by
      unfold firstIpv4Addr
      cases hfind : (host.findall "address").find?
          (fun a => a.get "addrtype" == some "ipv4") with
      | none => rfl
      | some a =>
          have hmem := List.mem_of_find?_eq_some hfind
          have hpred : a.get "addrtype" = some "ipv4" := by
            simpa using List.find?_some hfind
          exact hno a hmem hpred
    simp [processHost, hip]
  · intro root f r hr
    rcases mem_parse.1 hr with ⟨host, -, hmem⟩
    rcases mem_processHost.1 hmem with ⟨hip, P, -, port, -, hpp⟩
    rcases processPort_eq_some_iff.1 hpp with ⟨-, rfl⟩
    rw [mkRecord_ip]
    exact pyTruthy_getD_ne hip

/-- C2 at concrete inputs: the ipv6-only host emits nothing, and the record
from `sampleRoot` has a non-empty ip. -/
theorem c2_witness :
    processHost "all" v6Host = [] ∧ sampleRecord.ip ≠ "" :=
  ⟨c2_ipv4_required.1 "all" v6Host (by decide),
   c2_ipv4_required.2 sampleRoot "all" sampleRecord (by decide)⟩

/-- C7: output order is document order of hosts, then of ports within each
host; splitting the document (or the port list of one host) anywhere splits
the output at the matching point, so nothing is sorted, deduplicated or
merged across hosts. -/
theorem c7_document_order :
    (∀ f t a cs1 cs2,
       parse_nmap_xml ⟨t, a, cs1 ++ cs2⟩ f =
         parse_nmap_xml ⟨t, a, cs1⟩ f ++ parse_nmap_xml ⟨t, a, cs2⟩ f) ∧
    (∀ h i f t a ps1 ps2,
       portRecords h i f ⟨t, a, ps1 ++ ps2⟩ =
         portRecords h i f ⟨t, a, ps1⟩ ++ portRecords h i f ⟨t, a, ps2⟩) := by
  constructor
  · intro f t a cs1 cs2
    unfold parse_nmap_xml Elem.findallDeep Elem.descendants
    simp [Elem.children, preorderList_append]
  · intro h i f t a ps1 ps2
    unfold portRecords Elem.findall
    simp [Elem.children]

/-- C8: a parse failure aborts the whole run with no partial output, a
parsed document always transforms successfully, and a host without a
`ports` child is skipped without error. -/
theorem c8_error_handling :
    (∀ e f, run_parse_nmap_xml (Except.error e) f = Except.error e) ∧
    (∀ root f,
       run_parse_nmap_xml (Except.ok root) f =
         Except.ok (parse_nmap_xml root f)) ∧
    (∀ f host, host.find "ports" = none → processHost f host = []) := by
  refine ⟨fun e f => rfl, fun root f => rfl, fun f host hp => ?_⟩
  simp [processHost, hp]

/-- C8 at concrete inputs: an error input propagates, and the host without
a `ports` child emits nothing. -/
theorem c8_witness :
    run_parse_nmap_xml (Except.error "bad") "all" = Except.error "bad" ∧
    processHost "all" noPortsHost = [] :=
  ⟨c8_error_handling.1 "bad" "all",
   c8_error_handling.2.2 "all" noPortsHost rfl⟩

/-- C9: the transform is a pure function of the document and the filter:
two runs on the same inputs are identical, and the wrapped run is fully
determined by the transform's value. -/
theorem c9_deterministic (root : Elem) (f : String) :
    parse_nmap_xml root f = parse_nmap_xml root f ∧
    run_parse_nmap_xml (Except.ok root) f =
      Except.ok (parse_nmap_xml root f) :=
  ⟨rfl, rfl⟩

/-- C10: when the first ipv4-tagged address of a host has an absent or
empty `addr`, the host emits nothing — the scan stops at the first
`addrtype` match even when a later ipv4 address is usable. -/
theorem c10_first_ipv4_wins (f : String) (host a : Elem)
    (hfind : (host.findall "address").find?
        (fun x => x.get "addrtype" == some "ipv4") = some a)
    (haddr : pyTruthy (a.get "addr") = false) :
    processHost f host = [] := by
  have hip : pyTruthy (firstIpv4Addr host) = false := by
    unfold firstIpv4Addr
    rw [hfind]
    exact haddr
  simp [processHost, hip]

/-- C10 at a concrete input: the host whose first ipv4 address is empty and
whose second carries 192.0.2.7 emits nothing despite its open port. -/
theorem c10_witness : processHost "all" dualIpv4Host = [] :=
  c10_first_ipv4_wins "all" dualIpv4Host emptyAddrElem rfl (by decide)

/-! ### The service-details dictionary -/

theorem pyTruthy_iff (o : Option String) :
    pyTruthy o = true ↔ ∃ v, o = some v ∧ v ≠ "" := by
  cases o <;> simp [pyTruthy]

theorem alookup_append (l1 l2 : List (String × String)) (k : String) :
    alookup (l1 ++ l2) k = (alookup l1 k).or (alookup l2 k) := by
  unfold alookup
  rw [List.find?_append]
  cases l1.find? (fun p => p.1 == k) <;> simp

theorem alookup_singleton (k k' v : String) :
    alookup [(k', v)] k = if k = k' then some v else none := by
  unfold alookup
  by_cases hk : k = k'
  · subst hk; simp
  · simp [hk, Ne.symm hk]

theorem alookup_attrEntry (s : Elem) (a k : String) :
    alookup (attrEntry s a) k =
      if k = a ∧ pyTruthy (s.get a) = true then s.get a else none := by
  cases hg : s.get a with
  | none => simp [attrEntry, hg, alookup, pyTruthy]
  | some v =>
      by_cases hv : v = ""
      · subst hv; simp [attrEntry, hg, alookup, pyTruthy]
      · by_cases hk : k = a
        · subst hk; simp [attrEntry, hg, alookup_singleton, pyTruthy, hv]
        · simp [attrEntry, hg, alookup_singleton, pyTruthy, hv, hk]

theorem attrEntry_eq_nil_iff (s : Elem) (a : String) :
    attrEntry s a = [] ↔ pyTruthy (s.get a) = false := by
  unfold attrEntry
  cases s.get a with
  | none => simp [pyTruthy]
  | some v => by_cases hv : v = "" <;> simp [pyTruthy, hv]

theorem mem_attrEntry {s : Elem} {a k v : String}
    (h : (k, v) ∈ attrEntry s a) : k = a := by
  unfold attrEntry at h
  cases hg : s.get a with
  | none => rw [hg] at h; cases h
  | some w =>
      rw [hg] at h
      by_cases hw : w = ""
      · simp [hw] at h
      · simp [hw] at h
        exact h.1

theorem alookup_flatten_not_mem (s : Elem) (l : List String) (k : String)
    (hk : k ∉ l) :
    alookup ((l.map (attrEntry s)).flatten) k = none := by
  induction l with
  | nil => rfl
  | cons a rest ih =>
      simp only [List.map_cons, List.flatten_cons]
      rw [alookup_append, alookup_attrEntry]
      have hcond : ¬(k = a ∧ pyTruthy (s.get a) = true) := by
        rintro ⟨h1, -⟩
        exact hk (by rw [h1]; exact List.mem_cons_self a rest)
      rw [if_neg hcond, Option.none_or]
      exact ih (fun h => hk (List.mem_cons_of_mem a h))

theorem alookup_flatten_mem (s : Elem) (l : List String) (k : String)
    (hk : k ∈ l) (hnd : l.Nodup) :
    alookup ((l.map (attrEntry s)).flatten) k =
      if pyTruthy (s.get k) = true then s.get k else none := by
  induction l with
  | nil => cases hk
  | cons a rest ih =>
      simp only [List.map_cons, List.flatten_cons]
      rw [alookup_append, alookup_attrEntry]
      by_cases hka : k = a
      · subst hka
        have hnr : k ∉ rest := (List.nodup_cons.1 hnd).1
        rw [alookup_flatten_not_mem s rest k hnr]
        by_cases ht : pyTruthy (s.get k) = true
        · rw [if_pos (⟨rfl, ht⟩ : k = k ∧ pyTruthy (s.get k) = true),
            if_pos ht]
          obtain ⟨v, hv, -⟩ := (pyTruthy_iff _).1 ht
          rw [hv]
          rfl
        · have hcond : ¬(k = k ∧ pyTruthy (s.get k) = true) := by
            rintro ⟨-, h2⟩
            exact ht h2
          rw [if_neg hcond, if_neg ht]
          rfl
      · have hcond : ¬(k = a ∧ pyTruthy (s.get a) = true) := by
          rintro ⟨h1, -⟩
          exact hka h1
        rw [if_neg hcond, Option.none_or]
        exact ih ((List.mem_cons.1 hk).resolve_left hka) (List.nodup_cons.1 hnd).2

theorem alookup_base (s : Elem) (k : String) (hk : k ∈ detailAttrs) :
    alookup (serviceDetailsBase s) k =
      if pyTruthy (s.get k) = true then s.get k else none :=
  alookup_flatten_mem s detailAttrs k hk (by decide)

theorem alookup_base_combined (s : Elem) :
    alookup (serviceDetailsBase s) "combined_info" = none :=
  alookup_flatten_not_mem s detailAttrs "combined_info" (by decide)

theorem serviceDetailsBase_eq_nil_iff (s : Elem) :
    serviceDetailsBase s = [] ↔
      ∀ a ∈ detailAttrs, pyTruthy (s.get a) = false := by
  unfold serviceDetailsBase
  rw [List.flatten_eq_nil_iff]
  constructor
  · intro h a ha
    exact (attrEntry_eq_nil_iff s a).1 (h _ (List.mem_map_of_mem _ ha))
  · intro h l hl
    rcases List.mem_map.1 hl with ⟨a, ha, rfl⟩
    exact (attrEntry_eq_nil_iff s a).2 (h a ha)

theorem serviceDetails_eq (s : Elem) :
    serviceDetails s =
      if (pyTruthy (s.get "product") || pyTruthy (s.get "version")) = true then
        serviceDetailsBase s ++
          [("combined_info",
            String.intercalate " "
              (optToList (s.get "product") ++ optToList (s.get "version")))]
      else serviceDetailsBase s := rfl

theorem serviceDetails_eq_nil_iff (s : Elem) :
    serviceDetails s = [] ↔
      ∀ a ∈ detailAttrs, pyTruthy (s.get a) = false := by
  rw [serviceDetails_eq]
  by_cases hpv :
      (pyTruthy (s.get "product") || pyTruthy (s.get "version")) = true
  · rw [if_pos hpv]
    constructor
    · intro h
      exact absurd h (by simp)
    · intro h
      have hp := h "product" (by decide)
      have hv := h "version" (by decide)
      rw [hp, hv] at hpv
      simp at hpv
  · rw [if_neg hpv]
    exact serviceDetailsBase_eq_nil_iff s

theorem alookup_serviceDetails_attr (s : Elem) (a : String)
    (ha : a ∈ detailAttrs) :
    alookup (serviceDetails s) a =
      if pyTruthy (s.get a) = true then s.get a else none := by
  have hac : a ≠ "combined_info" :=
    (show ∀ x ∈ detailAttrs, x ≠ "combined_info" by decide) a ha
  rw [serviceDetails_eq]
  by_cases hpv :
      (pyTruthy (s.get "product") || pyTruthy (s.get "version")) = true
  · rw [if_pos hpv, alookup_append, alookup_base s a ha]
    by_cases ht : pyTruthy (s.get a) = true
    · rw [if_pos ht]
      obtain ⟨v, hv, -⟩ := (pyTruthy_iff _).1 ht
      rw [hv]
      rfl
    · rw [if_neg ht, Option.none_or, alookup_singleton, if_neg hac]
  · rw [if_neg hpv]
    exact alookup_base s a ha

theorem alookup_serviceDetails_combined (s : Elem) :
    alookup (serviceDetails s) "combined_info" =
      if (pyTruthy (s.get "product") || pyTruthy (s.get "version")) = true then
        some (String.intercalate " "
          (optToList (s.get "product") ++ optToList (s.get "version")))
      else none := by
  rw [serviceDetails_eq]
  by_cases hpv :
      (pyTruthy (s.get "product") || pyTruthy (s.get "version")) = true
  · rw [if_pos hpv, if_pos hpv, alookup_append, alookup_base_combined,
      Option.none_or, alookup_singleton, if_pos rfl]
  · rw [if_neg hpv, if_neg hpv, alookup_base_combined]

theorem mem_serviceDetails_key (s : Elem) (k v : String)
    (h : (k, v) ∈ serviceDetails s) :
    k ∈ detailAttrs ∨ k = "combined_info" := by
  rw [serviceDetails_eq] at h
  have hbase : (k, v) ∈ serviceDetailsBase s → k ∈ detailAttrs := by
    intro hb
    unfold serviceDetailsBase at hb
    rcases List.mem_flatten.1 hb with ⟨l, hl, hkv⟩
    rcases List.mem_map.1 hl with ⟨a, ha, rfl⟩
    exact (mem_attrEntry hkv) ▸ ha
  by_cases hpv :
      (pyTruthy (s.get "product") || pyTruthy (s.get "version")) = true
  · rw [if_pos hpv] at h
    rcases List.mem_append.1 h with hb | hc
    · exact Or.inl (hbase hb)
    · rcases List.mem_singleton.1 hc with heq
      exact Or.inr (congrArg Prod.fst heq)
  · rw [if_neg hpv] at h
    exact Or.inl (hbase h)

theorem optToList_of_falsy {o : Option String} (h : pyTruthy o = false) :
    optToList o = [] := by
  cases o with
  | none => rfl
  | some v =>
      have : v = "" := by simpa [pyTruthy] using h
      simp [optToList, this]

theorem optToList_of_truthy {o : Option String} (h : pyTruthy o = true) :
    optToList o = [o.getD ""] := by
  obtain ⟨v, rfl, hv⟩ := (pyTruthy_iff o).1 h
  simp [optToList, hv]

theorem intercalate_optToList (p v : Option String)
    (h : pyTruthy p = true ∨ pyTruthy v = true) :
    String.intercalate " " (optToList p ++ optToList v) =
      specCombinedInfo p v := by
  unfold specCombinedInfo
  by_cases hp : pyTruthy p = true
  · rw [optToList_of_truthy hp, if_pos hp]
    by_cases hv : pyTruthy v = true
    · rw [optToList_of_truthy hv, if_pos hv]
      rfl
    · rw [optToList_of_falsy (Bool.not_eq_true _ ▸ hv), if_neg hv]
      rfl
  · rcases h with h | hv
    · exact absurd h hp
    · rw [optToList_of_falsy (Bool.not_eq_true _ ▸ hp),
        optToList_of_truthy hv, if_neg hp]
      rfl

/-- C3: `detailed_service_info` is present on a record exactly when the
port has a `service` child with at least one truthy attribute among the
five; when present, it maps each of the five attributes to its (non-empty)
value exactly when that attribute is truthy, carries `combined_info`
exactly when product or version is truthy, and holds no other key. -/
theorem c3_detailed_service_info (h i f : String) (port : Elem)
    (r : FlatRecord) (hpp : processPort h i f port = some r) :
    ((r.detailed_service_info ≠ none) ↔
       ∃ s, port.find "service" = some s ∧
         ∃ a ∈ detailAttrs, pyTruthy (s.get a) = true) ∧
    (∀ s d, port.find "service" = some s →
       r.detailed_service_info = some d →
       (∀ a ∈ detailAttrs,
          alookup d a =
            if pyTruthy (s.get a) = true then s.get a else none) ∧
       ((alookup d "combined_info" ≠ none) ↔
          (pyTruthy (s.get "product") = true ∨
           pyTruthy (s.get "version") = true)) ∧
       (∀ k w, (k, w) ∈ d → k ∈ detailAttrs ∨ k = "combined_info")) := by
  rcases processPort_eq_some_iff.1 hpp with ⟨-, rfl⟩
  rw [mkRecord_dsi]
  constructor
  · cases hs : port.find "service" with
    | none => simp [serviceDetailsOf, hs]
    | some s =>
        simp only [serviceDetailsOf, hs]
        by_cases hemp : serviceDetails s = []
        · rw [hemp]
          simp only [List.isEmpty_nil, if_pos rfl]
          constructor
          · intro hfalse
            exact absurd rfl hfalse
          · rintro ⟨s', hs', a, ha, hta⟩
            have hss : s' = s := by
              injection hs' with hs''
              exact hs''.symm
            rw [hss] at hta
            have hfa := (serviceDetails_eq_nil_iff s).1 hemp a ha
            rw [hfa] at hta
            cases hta
        · rw [if_neg (by simpa [List.isEmpty_eq_true] using hemp)]
          constructor
          · intro _
            refine ⟨s, rfl, ?_⟩
            by_contra hnone
            push_neg at hnone
            refine hemp ((serviceDetails_eq_nil_iff s).2 fun a ha => ?_)
            have hna := hnone a ha
            cases hb : pyTruthy (s.get a) with
            | false => rfl
            | true => exact absurd hb hna
          · intro _
            exact Option.some_ne_none _
  · intro s d hs hd
    have hsd : serviceDetailsOf port = serviceDetails s := by
      rw [serviceDetailsOf, hs]
    rw [hsd] at hd
    by_cases hemp : (serviceDetails s).isEmpty
    · rw [if_pos hemp] at hd
      cases hd
    · rw [if_neg hemp] at hd
      obtain rfl : serviceDetails s = d := by
        injection hd
      refine ⟨fun a ha => alookup_serviceDetails_attr s a ha, ?_,
        fun k w hkw => mem_serviceDetails_key s k w hkw⟩
      rw [alookup_serviceDetails_combined s]
      by_cases hp : pyTruthy (s.get "product") = true <;>
        by_cases hv : pyTruthy (s.get "version") = true <;>
          simp [hp, hv]

/-- C3 at a concrete input: the §8 scenario record carries
`detailed_service_info`. -/
theorem c3_witness :
    (sampleRecord.detailed_service_info ≠ none) ↔
      ∃ s, samplePort.find "service" = some s ∧
        ∃ a ∈ detailAttrs, pyTruthy (s.get a) = true :=
  (c3_detailed_service_info "web1" "10.0.0.5" "all" samplePort sampleRecord
    (by decide)).1

/-- C4: when product or version is truthy on the port's service, the
record's details carry `combined_info` equal to the space-joined non-empty
ones of product and version in that order; when neither is truthy, no
`combined_info` entry exists. -/
theorem c4_combined_info (h i f : String) (port : Elem) (r : FlatRecord)
    (s : Elem) (hpp : processPort h i f port = some r)
    (hs : port.find "service" = some s) :
    ((pyTruthy (s.get "product") = true ∨
      pyTruthy (s.get "version") = true) →
       ∃ d, r.detailed_service_info = some d ∧
         alookup d "combined_info" =
           some (specCombinedInfo (s.get "product") (s.get "version"))) ∧
    (pyTruthy (s.get "product") = false →
     pyTruthy (s.get "version") = false →
       ∀ d, r.detailed_service_info = some d →
         alookup d "combined_info" = none) := by
  rcases processPort_eq_some_iff.1 hpp with ⟨-, rfl⟩
  rw [mkRecord_dsi]
  have hsd : serviceDetailsOf port = serviceDetails s := by
    rw [serviceDetailsOf, hs]
  rw [hsd]
  constructor
  · intro hor
    have hpv :
        (pyTruthy (s.get "product") || pyTruthy (s.get "version")) = true :=
      Bool.or_eq_true _ _ ▸ hor
    have hne : serviceDetails s ≠ [] := by
      rw [serviceDetails_eq, if_pos hpv]
      simp
    rw [if_neg (by simpa [List.isEmpty_eq_true] using hne)]
    refine ⟨serviceDetails s, rfl, ?_⟩
    rw [alookup_serviceDetails_combined s, if_pos hpv,
      intercalate_optToList _ _ hor]
  · intro hp hv d hd
    by_cases hemp : (serviceDetails s).isEmpty
    · rw [if_pos hemp] at hd
      cases hd
    · rw [if_neg hemp] at hd
      obtain rfl : serviceDetails s = d := by
        injection hd
      rw [alookup_serviceDetails_combined s, hp, hv]
      rfl

/-- C4 at a concrete input: the §8 scenario yields
`combined_info = "nginx 1.18"`. -/
theorem c4_witness :
    ∃ d, sampleRecord.detailed_service_info = some d ∧
      alookup d "combined_info" =
        some (specCombinedInfo (sampleService.get "product")
          (sampleService.get "version")) :=
  (c4_combined_info "web1" "10.0.0.5" "all" samplePort sampleRecord
    sampleService (by decide) rfl).1 (Or.inl (by decide))

/-! ### The script-output dictionary -/

theorem dictInsert_ne_nil (m : List (String × String)) (k v : String) :
    dictInsert m k v ≠ [] := by
  unfold dictInsert
  by_cases hc : m.any (fun p => p.1 == k) = true
  · rw [if_pos hc]
    intro hmap
    rw [List.map_eq_nil_iff] at hmap
    subst hmap
    simp at hc
  · rw [if_neg hc]
    simp

theorem mem_dictInsert {m : List (String × String)} {k v k' v' : String}
    (h : (k', v') ∈ dictInsert m k v) :
    (k', v') ∈ m ∨ (k' = k ∧ v' = v) := by
  unfold dictInsert at h
  by_cases hc : m.any (fun p => p.1 == k) = true
  · rw [if_pos hc] at h
    rcases List.mem_map.1 h with ⟨p, hp, heq⟩
    by_cases hpk : (p.1 == k) = true
    · rw [if_pos hpk] at heq
      right
      exact ⟨(congrArg Prod.fst heq).symm, (congrArg Prod.snd heq).symm⟩
    · rw [if_neg hpk] at heq
      left
      exact heq ▸ hp
  · rw [if_neg hc] at h
    rcases List.mem_append.1 h with h1 | h1
    · exact Or.inl h1
    · right
      rcases List.mem_singleton.1 h1 with heq
      exact ⟨congrArg Prod.fst heq, congrArg Prod.snd heq⟩

theorem alookup_eq_none_of_any_eq_false {m : List (String × String)}
    {k : String} (hc : m.any (fun p => p.1 == k) = false) :
    alookup m k = none := by
  unfold alookup
  rw [List.find?_eq_none.2]
  · rfl
  · intro p hp hpk
    rw [List.any_eq_false] at hc
    exact hc p hp hpk

theorem alookup_map_replace (m : List (String × String)) (k v k' : String)
    (hk : k' ≠ k) :
    alookup (m.map (fun q => if q.1 == k then (k, v) else q)) k' =
      alookup m k' := by
  induction m with
  | nil => rfl
  | cons q rest ih =>
      simp only [List.map_cons]
      by_cases hqk : (q.1 == k) = true
      · rw [if_pos hqk]
        have hq1 : q.1 = k := by simpa using hqk
        have h1 : ((k, v).1 == k') = false := by
          simp [Ne.symm hk]
        have h2 : (q.1 == k') = false := by
          rw [hq1]
          simp [Ne.symm hk]
        unfold alookup
        rw [List.find?_cons_of_neg _ (by simp [h1]),
          List.find?_cons_of_neg _ (by simp [h2])]
        exact ih
      · rw [if_neg hqk]
        by_cases hqk' : (q.1 == k') = true
        · unfold alookup
          rw [List.find?_cons_of_pos _ (by simpa using hqk'),
            List.find?_cons_of_pos _ (by simpa using hqk')]
        · unfold alookup
          rw [List.find?_cons_of_neg _ (by simpa using hqk'),
            List.find?_cons_of_neg _ (by simpa using hqk')]
          exact ih

theorem alookup_map_replace_self (m : List (String × String)) (k v : String)
    (hc : m.any (fun p => p.1 == k) = true) :
    alookup (m.map (fun q => if q.1 == k then (k, v) else q)) k = some v := by
  induction m with
  | nil => simp at hc
  | cons q rest ih =>
      simp only [List.map_cons]
      by_cases hqk : (q.1 == k) = true
      · rw [if_pos hqk]
        unfold alookup
        rw [List.find?_cons_of_pos _ (by simp)]
        rfl
      · rw [if_neg hqk]
        unfold alookup
        rw [List.find?_cons_of_neg _ (by simpa using hqk)]
        apply ih
        rcases List.any_eq_true.1 hc with ⟨p, hp, hpk⟩
        rcases List.mem_cons.1 hp with rfl | hp'
        · exact absurd hpk hqk
        · exact List.any_eq_true.2 ⟨p, hp', hpk⟩

theorem alookup_dictInsert_self (m : List (String × String)) (k v : String) :
    alookup (dictInsert m k v) k = some v := by
  unfold dictInsert
  by_cases hc : m.any (fun p => p.1 == k) = true
  · rw [if_pos hc]
    exact alookup_map_replace_self m k v hc
  · rw [if_neg hc, alookup_append,
      alookup_eq_none_of_any_eq_false (Bool.not_eq_true _ ▸ hc),
      Option.none_or, alookup_singleton, if_pos rfl]

theorem alookup_dictInsert_ne (m : List (String × String)) (k v k' : String)
    (hk : k' ≠ k) :
    alookup (dictInsert m k v) k' = alookup m k' := by
  unfold dictInsert
  by_cases hc : m.any (fun p => p.1 == k) = true
  · rw [if_pos hc]
    exact alookup_map_replace m k v k' hk
  · rw [if_neg hc, alookup_append, alookup_singleton, if_neg hk,
      Option.or_none]

theorem scriptFold_cons_skip (acc : List (String × String)) (s : Elem)
    (rest : List Elem) (h : s.getD "id" "" = "") :
    scriptFold acc (s :: rest) = scriptFold acc rest := by
  simp [scriptFold, h]

theorem scriptFold_cons_insert (acc : List (String × String)) (s : Elem)
    (rest : List Elem) (h : s.getD "id" "" ≠ "") :
    scriptFold acc (s :: rest) =
      scriptFold (dictInsert acc (s.getD "id" "") (s.getD "output" ""))
        rest := by
  simp [scriptFold, h]

theorem scriptFold_eq_nil_iff : ∀ (l : List Elem) (acc),
    scriptFold acc l = [] ↔ (acc = [] ∧ ∀ s ∈ l, s.getD "id" "" = "") := by
  intro l
  induction l with
  | nil => intro acc; simp [scriptFold]
  | cons s rest ih =>
      intro acc
      by_cases hsid : s.getD "id" "" = ""
      · rw [scriptFold_cons_skip acc s rest hsid, ih acc]
        simp [hsid]
      · rw [scriptFold_cons_insert acc s rest hsid, ih _]
        constructor
        · rintro ⟨hnil, -⟩
          exact absurd hnil (dictInsert_ne_nil _ _ _)
        · rintro ⟨-, hall⟩
          exact absurd (hall s (List.mem_cons_self s rest)) hsid

theorem mem_scriptFold : ∀ (l : List Elem) (acc) (k v : String),
    (k, v) ∈ scriptFold acc l →
    (k, v) ∈ acc ∨
      (k ≠ "" ∧ ∃ s ∈ l, s.getD "id" "" = k ∧ s.getD "output" "" = v) := by
  intro l
  induction l with
  | nil => intro acc k v h; exact Or.inl h
  | cons s rest ih =>
      intro acc k v h
      by_cases hsid : s.getD "id" "" = ""
      · rw [scriptFold_cons_skip _ _ _ hsid] at h
        rcases ih acc k v h with h1 | ⟨hk, s', hs', hid, hout⟩
        · exact Or.inl h1
        · exact Or.inr ⟨hk, s', List.mem_cons_of_mem s hs', hid, hout⟩
      · rw [scriptFold_cons_insert _ _ _ hsid] at h
        rcases ih _ k v h with h1 | ⟨hk, s', hs', hid, hout⟩
        · rcases mem_dictInsert h1 with h2 | ⟨hkk, hvv⟩
          · exact Or.inl h2
          · refine Or.inr ⟨?_, s, List.mem_cons_self s rest, hkk.symm, hvv.symm⟩
            rw [hkk]
            exact hsid
        · exact Or.inr ⟨hk, s', List.mem_cons_of_mem s hs', hid, hout⟩

theorem isSome_alookup_scriptFold_of_acc : ∀ (l : List Elem) (acc)
    (k : String), (alookup acc k).isSome = true →
    (alookup (scriptFold acc l) k).isSome = true := by
  intro l
  induction l with
  | nil => intro acc k h; exact h
  | cons s rest ih =>
      intro acc k h
      by_cases hsid : s.getD "id" "" = ""
      · rw [scriptFold_cons_skip _ _ _ hsid]
        exact ih acc k h
      · rw [scriptFold_cons_insert _ _ _ hsid]
        apply ih
        by_cases hks : k = s.getD "id" ""
        · rw [hks, alookup_dictInsert_self]
          rfl
        · rw [alookup_dictInsert_ne _ _ _ _ hks]
          exact h

theorem isSome_alookup_scriptFold : ∀ (l : List Elem) (acc) (s : Elem),
    s ∈ l → s.getD "id" "" ≠ "" →
    (alookup (scriptFold acc l) (s.getD "id" "")).isSome = true := by
  intro l
  induction l with
  | nil => intro acc s h; cases h
  | cons s' rest ih =>
      intro acc s hmem hid
      rcases List.mem_cons.1 hmem with rfl | hmem'
      · rw [scriptFold_cons_insert _ _ _ hid]
        apply isSome_alookup_scriptFold_of_acc
        rw [alookup_dictInsert_self]
        rfl
      · by_cases hsid : s'.getD "id" "" = ""
        · rw [scriptFold_cons_skip _ _ _ hsid]
          exact ih acc s hmem' hid
        · rw [scriptFold_cons_insert _ _ _ hsid]
          exact ih _ s hmem' hid

/-- C5: `script_output` is present on a record exactly when the port has a
`script` child with a non-empty id; when present, every entry comes from a
script with that non-empty id and that output (empty default), and every
script with a non-empty id has an entry under its id. -/
theorem c5_script_output (h i f : String) (port : Elem) (r : FlatRecord)
    (hpp : processPort h i f port = some r) :
    ((r.script_output ≠ none) ↔
       ∃ s ∈ port.findall "script", s.getD "id" "" ≠ "") ∧
    (∀ so, r.script_output = some so →
       (∀ k v, (k, v) ∈ so →
          k ≠ "" ∧ ∃ s ∈ port.findall "script",
            s.getD "id" "" = k ∧ s.getD "output" "" = v) ∧
       (∀ s ∈ port.findall "script", s.getD "id" "" ≠ "" →
          (alookup so (s.getD "id" "")).isSome = true)) := by
  rcases processPort_eq_some_iff.1 hpp with ⟨-, rfl⟩
  rw [mkRecord_so]
  constructor
  · by_cases hscr : (port.findall "script").isEmpty
    · rw [if_pos hscr]
      have hnil : port.findall "script" = [] := by
        simpa [List.isEmpty_eq_true] using hscr
      simp [hnil]
    · rw [if_neg hscr]
      by_cases hfold : (scriptOutputOf port).isEmpty
      · rw [if_pos hfold]
        have hnil : scriptFold [] (port.findall "script") = [] := by
          simpa [scriptOutputOf, List.isEmpty_eq_true] using hfold
        have hall := ((scriptFold_eq_nil_iff _ _).1 hnil).2
        constructor
        · intro hfalse
          exact absurd rfl hfalse
        · rintro ⟨s, hs, hid⟩
          exact absurd (hall s hs) hid
      · rw [if_neg hfold]
        constructor
        · intro _
          have hne : scriptFold [] (port.findall "script") ≠ [] := by
            simpa [scriptOutputOf, List.isEmpty_eq_true] using hfold
          by_contra hnone
          push_neg at hnone
          exact hne ((scriptFold_eq_nil_iff _ _).2 ⟨rfl, hnone⟩)
        · intro _
          exact Option.some_ne_none _
  · intro so hso
    by_cases hscr : (port.findall "script").isEmpty
    · rw [if_pos hscr] at hso
      cases hso
    · rw [if_neg hscr] at hso
      by_cases hfold : (scriptOutputOf port).isEmpty
      · rw [if_pos hfold] at hso
        cases hso
      · rw [if_neg hfold] at hso
        obtain rfl : scriptOutputOf port = so := by
          injection hso
        constructor
        · intro k v hkv
          rcases mem_scriptFold _ _ _ _ hkv with h1 | ⟨hk, s, hs, hid, hout⟩
          · cases h1
          · exact ⟨hk, s, hs, hid, hout⟩
        · intro s hs hid
          exact isSome_alookup_scriptFold _ [] s hs hid

/-- C5 at a concrete input: the scripted port's record carries
`script_output`, fed by its ssl-cert script only. -/
theorem c5_witness :
    (scriptedRecord.script_output ≠ none) ↔
      ∃ s ∈ scriptedPort.findall "script", s.getD "id" "" ≠ "" :=
  (c5_script_output "" "192.0.2.9" "all" scriptedPort scriptedRecord
    (by decide)).1

/-- C6: every emitted record carries the five mandatory fields, with `port`
the upper-cased protocol joined to the port id by a slash, `fqdn` the first
hostname's name under the host's `hostnames` child, and `service` the
service element's name, each defaulting to the empty string. -/
theorem c6_record_fields (root : Elem) (f : String) (r : FlatRecord)
    (hr : r ∈ parse_nmap_xml root f) :
    ∃ host ∈ root.findallDeep "host", ∃ ports, host.find "ports" = some ports ∧
      ∃ port ∈ ports.findall "port",
        r.fqdn = hostFqdn host ∧
        r.ip = (firstIpv4Addr host).getD "" ∧
        r.port =
          strUpper (port.getD "protocol" "") ++ "/" ++
            port.getD "portid" "" ∧
        r.port_status = portState port ∧
        r.service = serviceNameOf port := by
  rcases mem_parse.1 hr with ⟨host, hh, hmem⟩
  rcases mem_processHost.1 hmem with ⟨hip, P, hP, port, hport, hpp⟩
  rcases processPort_eq_some_iff.1 hpp with ⟨-, rfl⟩
  exact ⟨host, hh, P, hP, port, hport, rfl, rfl, rfl, rfl, rfl⟩

/-- C6 at a concrete input: the §8 scenario record's five fields. -/
theorem c6_witness :
    ∃ host ∈ sampleRoot.findallDeep "host",
      ∃ ports, host.find "ports" = some ports ∧
      ∃ port ∈ ports.findall "port",
        sampleRecord.fqdn = hostFqdn host ∧
        sampleRecord.ip = (firstIpv4Addr host).getD "" ∧
        sampleRecord.port =
          strUpper (port.getD "protocol" "") ++ "/" ++
            port.getD "portid" "" ∧
        sampleRecord.port_status = portState port ∧
        sampleRecord.service = serviceNameOf port :=
  c6_record_fields sampleRoot "all" sampleRecord (by decide)

end NmapXml
